import Mathlib

/-!
Verification development for the dummy-db file-backed document store
(packages/dummy-db). The definitions below are a shallow embedding of the
TypeScript source: JavaScript strings holding JSON are modelled by their
parse outcome, the filesystem by the results its read/list operations hand
back, and the single-threaded event loop of the concurrency runner by an
explicit step relation driven by an arbitrary schedule.
-/

namespace DummyDb

/-- JSON values, as produced by a successful `JSON.parse`.  Numbers are
modelled as integers (no claim involves fractional values); `obj` carries
its fields in order, modelling a JavaScript object with distinct keys. -/
inductive Json where
  | null : Json
  | bool (b : Bool) : Json
  | num (n : Int) : Json
  | str (s : String) : Json
  | arr (elems : List Json) : Json
  | obj (fields : List (String × Json)) : Json

/-- JavaScript truthiness of a parsed JSON value: `null`, `false`, `0` and
the empty string are falsy; every object and array is truthy. -/
def Json.truthy : Json → Bool
  | .null => false
  | .bool b => b
  | .num n => n != 0
  | .str s => !s.isEmpty
  | .arr _ => true
  | .obj _ => true

/-- JavaScript property access `v[k]` on a parsed JSON value: only objects
have (own) data properties; a missing property reads as `undefined`,
modelled by `none`. -/
def Json.getField (j : Json) (k : String) : Option Json :=
  match j with
  | .obj fields => fields.lookup k
  | _ => none

/-- The content of a document file, abstracted by what `JSON.parse` does to
it: `valid j` is a string parsing to the value `j`; `malformed` is any
string (including the empty one) on which `JSON.parse` throws. -/
inductive FileContent where
  | valid (j : Json) : FileContent
  | malformed : FileContent

/-- Outcome of `readFile` at a path. -/
inductive ReadResult where
  | ok (c : FileContent) : ReadResult
  | enoent : ReadResult
  | ioError : ReadResult

/-- Outcome of `unlink` at a path. -/
inductive UnlinkResult where
  | ok : UnlinkResult
  | enoent : UnlinkResult
  | err (msg : String) : UnlinkResult
  deriving DecidableEq, Repr

/-- A directory entry as returned by `readdir(..., { withFileTypes: true })`. -/
structure DirEnt where
  name : String
  isFile : Bool
  deriving DecidableEq, Repr

/-- The observable filesystem: what `readFile` returns at each path, and
what `readdir` returns at each directory (`none` models a throwing
`readdir`, e.g. a missing directory). -/
structure FileSystem where
  read : String → ReadResult
  listDir : String → Option (List DirEnt)

/-- CollectionReference: identity plus the owning database's path.  Its
`path` is `<database path>/collections/<id>` (node's `join` on well-formed
segments is plain separator concatenation). -/
structure CollectionReference where
  dbPath : String
  id : String
  deriving DecidableEq, Repr

def CollectionReference.path (c : CollectionReference) : String :=
  c.dbPath ++ "/collections/" ++ c.id

/-- The collection's `documents` subdirectory, `join(collection.path, 'documents')`. -/
def docsDirPath (c : CollectionReference) : String :=
  c.path ++ "/documents"

/-- DocumentReference: owning collection plus identity; its path is
`join(collection.path, 'documents', id + '.json')`. -/
structure DocumentReference where
  collection : CollectionReference
  id : String
  deriving DecidableEq, Repr

def DocumentReference.path (r : DocumentReference) : String :=
  docsDirPath r.collection ++ "/" ++ r.id ++ ".json"

/-- `doc(collection, id)`: pure constructor. -/
def doc (collection : CollectionReference) (id : String) : DocumentReference :=
  ⟨collection, id⟩

/-- DocumentSnapshot: a reference plus the raw file content (`none` when the
file was missing or unreadable).  `readTime` is irrelevant to the claims and
omitted. -/
structure DocumentSnapshot where
  ref : DocumentReference
  raw : Option FileContent

namespace DocumentSnapshot

/-- `_parseRaw`: one (memoized) parse attempt.  Absent raw content (which in
JS includes the falsy empty string — on which `JSON.parse` throws anyway)
and malformed JSON both leave the parsed record `undefined`.  The source
memoizes the outcome in `_hasParsed`/`_parsed`; in this pure model the parse
is a function of the snapshot, so the memoization is invisible. -/
def parsedRecord (s : DocumentSnapshot) : Option Json :=
  match s.raw with
  | none => none
  | some .malformed => none
  | some (.valid j) => some j

/-- `data()`: `this._parsed?.data`. -/
def data (s : DocumentSnapshot) : Option Json :=
  (s.parsedRecord).bind (fun j => j.getField "data")

/-- `exists()`: `!!this._parsed` — JavaScript truthiness of the parsed
value, `false` when parsing failed or the file was absent. -/
def existsb (s : DocumentSnapshot) : Bool :=
  match s.parsedRecord with
  | none => false
  | some j => j.truthy

/-- `metadata()`: `this._parsed?.meta`. -/
def metadata (s : DocumentSnapshot) : Option Json :=
  (s.parsedRecord).bind (fun j => j.getField "meta")

end DocumentSnapshot

/-- `getDoc(docRef)`: read `docRef.path`; `ENOENT` and any other read
failure both degrade to a snapshot with absent content (the latter after
logging), so no exception propagates — the function is total. -/
def getDoc (fs : FileSystem) (docRef : DocumentReference) : DocumentSnapshot :=
  match fs.read docRef.path with
  | .ok c => ⟨docRef, some c⟩
  | .enoent => ⟨docRef, none⟩
  | .ioError => ⟨docRef, none⟩

/-- The record `setDoc` serializes: `{data, id, meta:{createdAt, updatedAt}}`
with both timestamps equal to the single timestamp computed for the call. -/
def recordJson (data : Json) (id timestamp : String) : Json :=
  .obj [("data", data), ("id", .str id),
        ("meta", .obj [("createdAt", .str timestamp), ("updatedAt", .str timestamp)])]

/-- `setDoc(docRef, data)`: unconditionally overwrite the file at
`docRef.path` with the serialized record.  `timestamp` stands for the
`new Date().toISOString()` computed at the call.  Writing a JSON.stringify
of the record yields a string that parses back to exactly that record,
hence content `FileContent.valid`.  (Directory listings are not maintained
by this model; no claim mixes `setDoc` with `getDocs`.) -/
def setDoc (fs : FileSystem) (docRef : DocumentReference) (data : Json)
    (timestamp : String) : FileSystem :=
  { fs with
    read := fun p =>
      if p = docRef.path then .ok (.valid (recordJson data docRef.id timestamp))
      else fs.read p }

/-- `deleteDoc(docRef)`: `unlink` the file.  `ENOENT` is warned about and
swallowed; any other failure becomes an error naming the document id and
the underlying message.  Returns the outcome together with the warnings
logged. -/
def deleteDoc (docRef : DocumentReference) (r : UnlinkResult) :
    Except String Unit × List String :=
  match r with
  | .ok => (.ok (), [])
  | .enoent => (.ok (), ["Document " ++ docRef.id ++ " does not exist, nothing to delete."])
  | .err msg => (.error ("Failed to delete document " ++ docRef.id ++ ": " ++ msg), [])

/-! ### String helpers used by the bulk-retrieval pipeline -/

/-- JavaScript `s.replace(pat, repl)` with a *string* pattern replaces only
the first occurrence; this is the character-list worker.  The pattern is
assumed nonempty (it is always `".json"` in the source). -/
def replaceFirstChars (pat repl : List Char) : List Char → List Char
  | [] => []
  | c :: cs =>
    if pat.isPrefixOf (c :: cs) then repl ++ (c :: cs).drop pat.length
    else c :: replaceFirstChars pat repl cs

/-- JavaScript `s.replace(pat, repl)` for a string pattern: replace the
first occurrence only (`String.replace` in Lean would replace all). -/
def jsReplaceFirst (s pat repl : String) : String :=
  ⟨replaceFirstChars pat.data repl.data s.data⟩

/-- Whether `pat` occurs as a contiguous substring. -/
def hasSubstrChars (pat : List Char) : List Char → Bool
  | [] => pat.isEmpty
  | c :: cs => pat.isPrefixOf (c :: cs) || hasSubstrChars pat cs

def hasSubstr (s pat : String) : Bool :=
  hasSubstrChars pat.data s.data

/-- JavaScript `s.endsWith(suffix)`. -/
def strEndsWith (s suffix : String) : Bool :=
  suffix.data.isSuffixOf s.data

/-- The test `/^\d+$/.test(s)`: nonempty and all ASCII digits. -/
def isNumericId (s : String) : Bool :=
  !s.isEmpty && s.data.all (fun c => c.isDigit)

/-- `parseInt(s, 10)` on a string matching `^\d+$` (JavaScript would go
through floating point, but every claim stays far below 2^53). -/
def parseIntNat (s : String) : Nat :=
  s.data.foldl (fun n c => n * 10 + (c.toNat - 48)) 0

/-- `a.localeCompare(b)`, modelled as code-point lexicographic comparison
(the ordering the default locale gives to the ASCII ids appearing in the
spec's examples: digits sort before letters). -/
def lexCompareChars : List Char → List Char → Int
  | [], [] => 0
  | [], _ :: _ => -1
  | _ :: _, [] => 1
  | a :: as, b :: bs =>
    if a.toNat < b.toNat then -1
    else if b.toNat < a.toNat then 1
    else lexCompareChars as bs

def localeCompare (a b : String) : Int :=
  lexCompareChars a.data b.data

/-- `_sortById(a, b)`: two purely numeric ids compare numerically
(`parseInt(a) - parseInt(b)`), every other pair by `localeCompare`. -/
def sortById (a b : String) : Int :=
  if isNumericId a && isNumericId b then (parseIntNat a : Int) - (parseIntNat b : Int)
  else localeCompare a b

/-! ### Bulk listing (`_getDocsFromCollection`) -/

/-- Stable insertion used to model the stable `Array.prototype.sort`:
`x` is placed before the first element it compares `<= 0` against, so
elements comparing equal keep their original relative order. -/
def insertBy (le : α → α → Bool) (x : α) : List α → List α
  | [] => [x]
  | y :: ys => if le x y then x :: y :: ys else y :: insertBy le x ys

/-- Stable sort by the comparator-derived `le`. -/
def sortJs (le : α → α → Bool) : List α → List α
  | [] => []
  | x :: xs => insertBy le x (sortJs le xs)

/-- The filter `file.isFile() && file.name.endsWith('.json')`. -/
def keepEntry (e : DirEnt) : Bool :=
  e.isFile && strEndsWith e.name ".json"

/-- The id a listed file name is turned into: `name.replace('.json', '')`,
i.e. the name with only its *first* `".json"` occurrence removed. -/
def idOfFileName (name : String) : String :=
  jsReplaceFirst name ".json" ""

/-- Entry order `_sortById(a.name.replace(...), b.name.replace(...)) <= 0`. -/
def entryLe (a b : DirEnt) : Bool :=
  sortById (idOfFileName a.name) (idOfFileName b.name) ≤ 0

/-- `maxDocs`. -/
def maxDocs : Nat := 100

/-- `concurrency`. -/
def concurrency : Nat := 10

/-- The retained, sorted, capped directory entries: keep regular `.json`
files, sort by the id comparator (`Array.prototype.sort` is stable since
ES2019 and is modelled by the stable `sortJs` on `comparator(a,b) <= 0`),
truncate to `maxDocs`. -/
def docEntries (files : List DirEnt) : List DirEnt :=
  (sortJs entryLe (files.filter keepEntry)).take maxDocs

/-- The path a retained entry's snapshot is read from: the path of
`doc(collection, file.name.replace('.json', ''))`. -/
def docPathOfEntry (collection : CollectionReference) (e : DirEnt) : String :=
  (doc collection (idOfFileName e.name)).path

/-- One read task of the worker pool: read the referenced file, degrading
any failure (after logging) to a snapshot with absent content. -/
def readDocTask (fs : FileSystem) (collection : CollectionReference)
    (e : DirEnt) : DocumentSnapshot :=
  match fs.read (docPathOfEntry collection e) with
  | .ok c => ⟨doc collection (idOfFileName e.name), some c⟩
  | .enoent => ⟨doc collection (idOfFileName e.name), none⟩
  | .ioError => ⟨doc collection (idOfFileName e.name), none⟩

/-- `_getDocsFromCollection`: list the `documents` directory (a throwing
`readdir` is logged and yields `[]`), then read the retained, sorted,
capped entries.  The reads go through the bounded worker pool; by
`runPool_complete` below every completed pool run delivers exactly the
in-order task results, which is what this definition returns. -/
def getDocsFromCollection (fs : FileSystem) (collection : CollectionReference) :
    List DocumentSnapshot :=
  match fs.listDir (docsDirPath collection) with
  | none => []
  | some files => (docEntries files).map (readDocTask fs collection)

/-! ### Query filtering (`getDocs`) -/

inductive WhereFilterOp where
  | eq | ne | lt | le | gt | ge
  deriving DecidableEq, Repr

structure WhereClause where
  field : String
  op : WhereFilterOp
  value : Json

structure Query where
  collection : CollectionReference
  filters : List WhereClause

/-- `getDocs` accepts a bare `CollectionReference` or a `Query`. -/
inductive Source where
  | coll (c : CollectionReference)
  | query (q : Query)

mutual

/-- `ToString` of an element during `Array.prototype.join` (`null` and
`undefined` render empty, nested arrays join recursively, plain objects
render as `[object Object]`). -/
def jsonElemStr : Json → String
  | .null => ""
  | .bool b => if b then "true" else "false"
  | .num n => toString n
  | .str s => s
  | .arr xs => jsonListStr xs
  | .obj _ => "[object Object]"

/-- `Array.prototype.join(',')` over already-parsed elements. -/
def jsonListStr : List Json → String
  | [] => ""
  | [j] => jsonElemStr j
  | j :: js => jsonElemStr j ++ "," ++ jsonListStr js
end

/-- `ToPrimitive` with number hint: arrays and objects become their default
string forms, primitives stay. -/
def toPrimitive : Json → Json
  | .arr xs => .str (jsonListStr xs)
  | .obj _ => .str "[object Object]"
  | p => p

/-- `ToNumber` on a primitive; `none` models `NaN`.  String numerals are
modelled for optionally signed decimal digit strings (every value the
claims touch); other strings are `NaN`. -/
def toNumber : Json → Option Int
  | .null => some 0
  | .bool b => some (if b then 1 else 0)
  | .num n => some n
  | .str s =>
    let t := s.trim
    if t.isEmpty then some 0
    else if isNumericId t then some (parseIntNat t : Int)
    else if t.startsWith "-" && isNumericId (t.drop 1) then
      some (-(parseIntNat (t.drop 1) : Int))
    else none
  | .arr _ => none
  | .obj _ => none

/-- The abstract relational comparison `a < b` (`none` = undefined, i.e. a
`NaN` was involved): after `ToPrimitive`, two strings compare by code
units, anything else through `ToNumber`.  An absent operand is JavaScript
`undefined`, whose `ToNumber` is `NaN`. -/
def jsLtRaw (a b : Option Json) : Option Bool :=
  match a, b with
  | some x, some y =>
    match toPrimitive x, toPrimitive y with
    | .str sa, .str sb => some (lexCompareChars sa.data sb.data < 0)
    | px, py =>
      match toNumber px, toNumber py with
      | some nx, some ny => some (nx < ny)
      | _, _ => none
  | _, _ => none

/-- `fieldValue < value`. -/
def jsLtBool (a b : Option Json) : Bool := (jsLtRaw a b).getD false

/-- `fieldValue > value` (the comparison swapped). -/
def jsGtBool (a b : Option Json) : Bool := (jsLtRaw b a).getD false

/-- `fieldValue <= value`: `!(b < a)`, false when undefined. -/
def jsLeBool (a b : Option Json) : Bool :=
  match jsLtRaw b a with
  | none => false
  | some r => !r

/-- `fieldValue >= value`: `!(a < b)`, false when undefined. -/
def jsGeBool (a b : Option Json) : Bool :=
  match jsLtRaw a b with
  | none => false
  | some r => !r

/-- Strict equality `===` with `none` as `undefined`.  Primitives compare
by value; objects and arrays compare by reference, and a freshly parsed
field value never aliases the query's value, so those compare `false`. -/
def jsStrictEq : Option Json → Option Json → Bool
  | none, none => true
  | none, some _ => false
  | some _, none => false
  | some a, some b =>
    match a, b with
    | .null, .null => true
    | .bool x, .bool y => x == y
    | .num x, .num y => x == y
    | .str x, .str y => x == y
    | _, _ => false

/-- One `where` clause evaluated against a document's `data`:
`fieldValue = (data as any)[field]`, then the operator's JS semantics. -/
def evalClause (data : Json) (cl : WhereClause) : Bool :=
  let fieldValue := data.getField cl.field
  match cl.op with
  | .eq => jsStrictEq fieldValue (some cl.value)
  | .ne => !jsStrictEq fieldValue (some cl.value)
  | .lt => jsLtBool fieldValue (some cl.value)
  | .le => jsLeBool fieldValue (some cl.value)
  | .gt => jsGtBool fieldValue (some cl.value)
  | .ge => jsGeBool fieldValue (some cl.value)

/-- The in-memory predicate of `getDocs`: `const data = doc.data(); if
(!data) return false; return filters.every(...)` — absent *or falsy* data
fails the predicate before any clause is evaluated. -/
def docMatches (filters : List WhereClause) (d : DocumentSnapshot) : Bool :=
  match d.data with
  | none => false
  | some data => data.truthy && filters.all (evalClause data)

/-- `getDocs(source)`: always the full bounded listing; a `Query`'s clauses
are then applied conjunctively in memory (none when the filter list is
empty, which is also the case for a bare collection reference). -/
def getDocs (fs : FileSystem) (source : Source) : List DocumentSnapshot :=
  let collection := match source with | .query q => q.collection | .coll c => c
  let docs := getDocsFromCollection fs collection
  let filters := match source with | .query q => q.filters | .coll _ => []
  if filters.isEmpty then docs
  else docs.filter (docMatches filters)

/-! ### The bounded concurrency runner (`_runWithConcurrency`)

Each worker loops: synchronously grab `i = index++` (no `await` sits
between the bound check and the increment, so the grab is atomic on the
single-threaded event loop), then `await tasks[i]()` and store the result
at slot `i`.  A worker observing `index >= tasks.length` returns; the
function resolves when all `min(limit, tasks.length)` workers have.  Tasks
are modelled by their eventual values, an execution log records each
completed `tasks[i]()` call, and the event loop's interleaving is an
arbitrary schedule of worker wake-ups. -/

inductive WorkerStatus where
  | fetching
  | awaiting (i : Nat)
  | done
  deriving DecidableEq, Repr

structure PoolState (α : Type) where
  nextIndex : Nat
  results : List (Option α)
  workers : List WorkerStatus
  log : List Nat

def isDoneW : WorkerStatus → Bool
  | .done => true
  | _ => false

/-- One wake-up of worker `w`: a fetching worker atomically grabs the next
index (or returns when exhausted); a worker whose awaited read resolved
stores its result (`results[i] = ...`, a no-op beyond the array only when
`tasks[i]` was absent, which the source guards with `if (tasks[i])`) and
loops.  A wake-up of a finished or nonexistent worker changes nothing. -/
def stepPool (tasks : List α) (s : PoolState α) (w : Nat) : PoolState α :=
  match s.workers[w]? with
  | some WorkerStatus.fetching =>
    if s.nextIndex < tasks.length then
      { s with nextIndex := s.nextIndex + 1
             , workers := s.workers.set w (WorkerStatus.awaiting s.nextIndex) }
    else
      { s with workers := s.workers.set w WorkerStatus.done }
  | some (WorkerStatus.awaiting i) =>
    { s with results := s.results.set i tasks[i]?
           , workers := s.workers.set w WorkerStatus.fetching
           , log := s.log ++ [i] }
  | _ => s

/-- `Array.from({length: Math.min(limit, tasks.length)}, worker)` with an
initially empty results array, modelled as one absent slot per task. -/
def initPool (tasks : List α) (limit : Nat) : PoolState α :=
  { nextIndex := 0
  , results := List.replicate tasks.length none
  , workers := List.replicate (min limit tasks.length) WorkerStatus.fetching
  , log := [] }

/-- Run the pool under a given schedule of worker wake-ups. -/
def runPool (tasks : List α) (limit : Nat) (sched : List Nat) : PoolState α :=
  sched.foldl (stepPool tasks) (initPool tasks limit)

/-- `Promise.all` has resolved: every worker has returned. -/
def allDone (s : PoolState α) : Bool :=
  s.workers.all isDoneW

def isAwaiting (i : Nat) : WorkerStatus → Bool
  | .awaiting j => j == i
  | _ => false

/-- How many workers currently hold index `i` in flight. -/
def awaitCount (s : PoolState α) (i : Nat) : Nat :=
  s.workers.countP (isAwaiting i)

/-! ### Concrete instances used by the claims and their witnesses -/

def jsonPatChars : List Char := ['.', 'j', 's', 'o', 'n']

/-- A single clause viewed as a predicate on a snapshot, with the same
"absent or falsy data never matches" guard `getDocs` uses. -/
def matchesClause (snap : DocumentSnapshot) (cl : WhereClause) : Bool :=
  match snap.data with
  | none => false
  | some data => data.truthy && evalClause data cl

/-- A filesystem on which every read fails with `ENOENT` and every
directory listing throws: the state before anything is created. -/
def absentFs : FileSystem :=
  ⟨fun _ => .enoent, fun _ => none⟩

def exampleCollection : CollectionReference :=
  ⟨"root/db", "users"⟩

/-- The `createdAt` a caller reads out of `metadata()`. -/
def metaCreatedAt (s : DocumentSnapshot) : Option Json :=
  s.metadata.bind (fun m => m.getField "createdAt")

/-- A snapshot of a file whose content is the JSON text `5`. -/
def badSnapshot : DocumentSnapshot :=
  ⟨doc exampleCollection "weird", some (.valid (.num 5))⟩

/-- A well-formed record snapshot for the C2 witness. -/
def recordSnapshot : DocumentSnapshot :=
  ⟨doc exampleCollection "ok", some (.valid (recordJson (.num 7) "ok" "t0"))⟩

def clauseAge : WhereClause := ⟨"age", .ge, .num 18⟩

def clauseName : WhereClause := ⟨"name", .eq, .str "bob"⟩

def queryAB : Query := ⟨exampleCollection, [clauseAge, clauseName]⟩

def queryBA : Query := ⟨exampleCollection, [clauseName, clauseAge]⟩

/-- A filesystem holding one document file whose content is not JSON. -/
def badFileFs : FileSystem :=
  { read := fun p =>
      if p = docPathOfEntry exampleCollection ⟨"bad.json", true⟩ then .ok .malformed
      else .enoent
  , listDir := fun p =>
      if p = docsDirPath exampleCollection then some [⟨"bad.json", true⟩]
      else none }

def filteredQuery : Query := ⟨exampleCollection, [clauseAge]⟩

def badDocSnap : DocumentSnapshot :=
  ⟨doc exampleCollection "bad", some .malformed⟩

/-- A listing with ids `"abc"`, `"2"`, `"10"` in jumbled order. -/
def orderListing : List DirEnt :=
  [⟨"abc.json", true⟩, ⟨"2.json", true⟩, ⟨"10.json", true⟩]

def orderFs : FileSystem :=
  ⟨fun _ => .enoent,
    fun p => if p = docsDirPath exampleCollection then some orderListing else none⟩

def files150 : List DirEnt :=
  (List.range 150).map (fun i => ⟨Nat.repr i ++ ".json", true⟩)

def fs150 : FileSystem :=
  ⟨fun _ => .enoent,
    fun p => if p = docsDirPath exampleCollection then some files150 else none⟩

/-- A schedule completing 37 tasks on a pool of width 10: worker 0 performs
every grab/store pair, then each worker observes the exhausted cursor. -/
def sched37 : List Nat := List.replicate 74 0 ++ List.range 10

/-- The run invariant of the pool: the cursor never passes the task count;
the results array keeps one slot per task, filled for exactly the logged
indices; every index below the cursor is held by exactly one worker or was
completed exactly once; and a worker only retires once the cursor is
exhausted. -/
structure PoolInv (tasks : List α) (s : PoolState α) : Prop where
  next_le : s.nextIndex ≤ tasks.length
  res_len : s.results.length = tasks.length
  res_spec : ∀ i, i < tasks.length →
    s.results[i]? = some (if i ∈ s.log then tasks[i]? else none)
  count_spec : ∀ i, s.log.count i + awaitCount s i = if i < s.nextIndex then 1 else 0
  done_next : ∀ st ∈ s.workers, st = WorkerStatus.done → s.nextIndex = tasks.length

/-- Updating one slot of a list changes a `countP` by the difference of the
predicate at the old and new values. -/
theorem countP_set_eq (p : α → Bool) :
    ∀ (l : List α) (w : Nat) (old new : α), l[w]? = some old →
      (l.set w new).countP p + (if p old then 1 else 0)
        = l.countP p + (if p new then 1 else 0)
  | [], w, old, new, h => by simp at h
  | x :: xs, 0, old, new, h => by
    simp only [List.getElem?_cons_zero, Option.some_inj] at h
    subst h
    simp only [List.set_cons_zero, List.countP_cons]
    omega
  | x :: xs, w + 1, old, new, h => by
    have ih := countP_set_eq p xs w old new (by simpa using h)
    simp only [List.set_cons_succ, List.countP_cons]
    omega

theorem initPool_inv (tasks : List α) (limit : Nat) :
    PoolInv tasks (initPool tasks limit) := by
  refine ⟨Nat.zero_le _, by simp [initPool], ?_, ?_, ?_⟩
  · intro i hi
    simp [initPool, List.getElem?_replicate, hi]
  · intro i
    have h0 : List.countP (isAwaiting i)
        (List.replicate (min limit tasks.length) WorkerStatus.fetching) = 0 := by
      rw [List.countP_eq_zero]
      intro a ha
      rw [List.eq_of_mem_replicate ha]
      simp [isAwaiting]
    simp [initPool, awaitCount, h0]
  · intro st hst hd
    subst hd
    have hst2 : WorkerStatus.done ∈
        List.replicate (min limit tasks.length) WorkerStatus.fetching := hst
    exact WorkerStatus.noConfusion (List.eq_of_mem_replicate hst2)

theorem stepPool_inv (tasks : List α) (s : PoolState α) (w : Nat)
    (h : PoolInv tasks s) : PoolInv tasks (stepPool tasks s w) := by
  rcases hw : s.workers[w]? with _ | st
  · simpa [stepPool, hw] using h
  rcases st with _ | i | _
  · -- fetching worker
    by_cases hn : s.nextIndex < tasks.length
    · -- grabs the next index
      simp only [stepPool, hw, if_pos hn]
      refine ⟨hn, h.res_len, h.res_spec, ?_, ?_⟩
      · intro i
        have hc := countP_set_eq (isAwaiting i) s.workers w WorkerStatus.fetching
          (WorkerStatus.awaiting s.nextIndex) hw
        have hcs := h.count_spec i
        have hfetch : isAwaiting i WorkerStatus.fetching = false := rfl
        have hnew : isAwaiting i (WorkerStatus.awaiting s.nextIndex) = (s.nextIndex == i) :=
          rfl
        rw [hfetch, hnew] at hc
        simp only [Bool.false_eq_true, if_false, beq_iff_eq] at hc
        dsimp only [awaitCount] at hcs hc ⊢
        by_cases hi : s.nextIndex = i
        · rw [if_pos hi] at hc
          rw [if_pos (by omega : i < s.nextIndex + 1)]
          rw [if_neg (by omega : ¬i < s.nextIndex)] at hcs
          omega
        · rw [if_neg hi] at hc
          by_cases hlt : i < s.nextIndex
          · rw [if_pos (by omega : i < s.nextIndex + 1)]
            rw [if_pos hlt] at hcs
            omega
          · rw [if_neg (by omega : ¬i < s.nextIndex + 1)]
            rw [if_neg hlt] at hcs
            omega
      · intro st hst hd
        subst hd
        dsimp only at hst
        rcases List.mem_or_eq_of_mem_set hst with hmem | heq
        · exact absurd (h.done_next _ hmem rfl) (by omega)
        · exact WorkerStatus.noConfusion heq
    · -- cursor exhausted: worker retires
      simp only [stepPool, hw, if_neg hn]
      refine ⟨h.next_le, h.res_len, h.res_spec, ?_, ?_⟩
      · intro i
        have hc := countP_set_eq (isAwaiting i) s.workers w WorkerStatus.fetching
          WorkerStatus.done hw
        have hcs := h.count_spec i
        have hfetch : isAwaiting i WorkerStatus.fetching = false := rfl
        have hdone : isAwaiting i WorkerStatus.done = false := rfl
        rw [hfetch, hdone] at hc
        simp only [Bool.false_eq_true, if_false] at hc
        dsimp only [awaitCount] at hcs hc ⊢
        omega
      · intro st hst hd
        show s.nextIndex = tasks.length
        have := h.next_le
        omega
  · -- awaiting worker: store the result, log the execution, loop
    have hmem : WorkerStatus.awaiting i ∈ s.workers := List.getElem?_mem hw
    have hpos : 0 < awaitCount s i :=
      List.countP_pos_iff.mpr ⟨_, hmem, by simp [isAwaiting]⟩
    have hcs := h.count_spec i
    have hiLt : i < s.nextIndex := by
      by_contra hh
      rw [if_neg hh] at hcs
      omega
    have hiTasks : i < tasks.length := Nat.lt_of_lt_of_le hiLt h.next_le
    have hlog0 : s.log.count i = 0 := by
      rw [if_pos hiLt] at hcs
      omega
    simp only [stepPool, hw]
    refine ⟨h.next_le, by simpa using h.res_len, ?_, ?_, ?_⟩
    · intro j hj
      dsimp only
      by_cases hji : j = i
      · subst hji
        have hjr : j < s.results.length := by rw [h.res_len]; exact hj
        rw [List.getElem?_set_self hjr]
        rw [if_pos (by simp : j ∈ s.log ++ [j])]
      · rw [List.getElem?_set_ne (fun hh => hji hh.symm)]
        rw [h.res_spec j hj]
        simp only [List.mem_append, List.mem_singleton, hji, or_false]
    · intro j
      have hc := countP_set_eq (isAwaiting j) s.workers w (WorkerStatus.awaiting i)
        WorkerStatus.fetching hw
      have hfetch : isAwaiting j WorkerStatus.fetching = false := rfl
      have hold : isAwaiting j (WorkerStatus.awaiting i) = (i == j) := rfl
      rw [hfetch, hold] at hc
      simp only [Bool.false_eq_true, if_false, beq_iff_eq] at hc
      have hcj := h.count_spec j
      dsimp only [awaitCount] at hcj hc ⊢
      rw [List.count_append, List.count_singleton]
      simp only [beq_iff_eq]
      by_cases hji : i = j
      · subst hji
        have h1 : (if i = i then 1 else 0) = 1 := if_pos rfl
        rw [h1] at hc ⊢
        rw [if_pos hiLt] at hcj ⊢
        omega
      · have h0 : (if i = j then 1 else 0) = 0 := if_neg hji
        rw [h0] at hc ⊢
        omega
    · intro st hst hd
      subst hd
      dsimp only at hst ⊢
      rcases List.mem_or_eq_of_mem_set hst with hmem2 | heq
      · exact h.done_next _ hmem2 rfl
      · exact WorkerStatus.noConfusion heq
  · -- retired worker: no-op
    simpa [stepPool, hw] using h

theorem runPool_inv (tasks : List α) (limit : Nat) (sched : List Nat) :
    PoolInv tasks (runPool tasks limit sched) := by
  suffices h : ∀ s : PoolState α, PoolInv tasks s →
      PoolInv tasks (sched.foldl (stepPool tasks) s) from
    h _ (initPool_inv tasks limit)
  induction sched with
  | nil => exact fun s hs => hs
  | cons w ws ih => exact fun s hs => ih _ (stepPool_inv tasks s w hs)

theorem stepPool_workers_length (tasks : List α) (s : PoolState α) (w : Nat) :
    (stepPool tasks s w).workers.length = s.workers.length := by
  rcases hw : s.workers[w]? with _ | st
  · simp [stepPool, hw]
  rcases st with _ | i | _
  · by_cases hn : s.nextIndex < tasks.length
    · simp [stepPool, hw, if_pos hn]
    · simp [stepPool, hw, if_neg hn]
  · simp [stepPool, hw]
  · simp [stepPool, hw]

theorem runPool_workers_length (tasks : List α) (limit : Nat) (sched : List Nat) :
    (runPool tasks limit sched).workers.length = min limit tasks.length := by
  suffices h : ∀ s : PoolState α,
      (sched.foldl (stepPool tasks) s).workers.length = s.workers.length by
    simp [runPool, h, initPool]
  induction sched with
  | nil => exact fun s => rfl
  | cons w ws ih =>
    intro s
    simp only [List.foldl_cons]
    rw [ih, stepPool_workers_length]

/-- Any schedule under which `Promise.all` resolves leaves the pool with
each task's value stored at its own slot, and each task executed exactly
once. -/
theorem runPool_complete (tasks : List α) (limit : Nat) (sched : List Nat)
    (hlim : 0 < limit)
    (hdone : allDone (runPool tasks limit sched) = true) :
    (runPool tasks limit sched).results = tasks.map some
      ∧ ∀ i, i < tasks.length → (runPool tasks limit sched).log.count i = 1 := by
  set s := runPool tasks limit sched with hs
  have hinv : PoolInv tasks s := runPool_inv tasks limit sched
  have hwl : s.workers.length = min limit tasks.length :=
    runPool_workers_length tasks limit sched
  have halldone : ∀ st ∈ s.workers, isDoneW st = true := by
    simpa [allDone, List.all_eq_true] using hdone
  have hawait : ∀ i, awaitCount s i = 0 := by
    intro i
    rw [awaitCount, List.countP_eq_zero]
    intro st hst hawaits
    have := halldone st hst
    cases st <;> simp_all [isAwaiting, isDoneW]
  by_cases htl : tasks.length = 0
  · have hte : tasks = [] := List.length_eq_zero.mp htl
    subst hte
    refine ⟨?_, by intro i hi; cases hi⟩
    have : s.results.length = 0 := by rw [hinv.res_len]; rfl
    rw [List.length_eq_zero.mp this]
    rfl
  · have hwpos : 0 < s.workers.length := by
      rw [hwl]
      exact Nat.lt_min.mpr ⟨hlim, Nat.pos_of_ne_zero htl⟩
    obtain ⟨st0, hst0⟩ := List.exists_mem_of_length_pos hwpos
    have hst0d : st0 = WorkerStatus.done := by
      have := halldone st0 hst0
      cases st0 <;> simp_all [isDoneW]
    have hnext : s.nextIndex = tasks.length := hinv.done_next st0 hst0 hst0d
    have hcnt : ∀ i, i < tasks.length → s.log.count i = 1 := by
      intro i hi
      have := hinv.count_spec i
      rw [hawait, hnext, if_pos hi] at this
      omega
    refine ⟨?_, hcnt⟩
    apply List.ext_getElem?
    intro j
    by_cases hj : j < tasks.length
    · have hmemlog : j ∈ s.log := List.count_pos_iff.mp (by rw [hcnt j hj]; omega)
      rw [hinv.res_spec j hj, if_pos hmemlog, List.getElem?_map,
        List.getElem?_eq_getElem hj]
      rfl
    · have hrl := hinv.res_len
      have h1 : s.results.length ≤ j := by omega
      have h2 : (tasks.map some).length ≤ j := by
        rw [List.length_map]
        omega
      rw [List.getElem?_eq_none h1, List.getElem?_eq_none h2]

/-! ### Helper lemmas about the stable sort and conjunctive filters -/

theorem insertBy_perm (le : α → α → Bool) (x : α) (l : List α) :
    (insertBy le x l).Perm (x :: l) := by
  induction l with
  | nil => simp [insertBy]
  | cons y ys ih =>
    by_cases hle : le x y
    · simp [insertBy, hle]
    · simp only [insertBy, if_neg hle]
      exact (ih.cons y).trans (List.Perm.swap x y ys)

theorem sortJs_perm (le : α → α → Bool) (l : List α) : (sortJs le l).Perm l := by
  induction l with
  | nil => exact List.Perm.refl _
  | cons x xs ih =>
    exact (insertBy_perm le x (sortJs le xs)).trans (ih.cons x)

theorem sortJs_length (le : α → α → Bool) (l : List α) :
    (sortJs le l).length = l.length :=
  (sortJs_perm le l).length_eq

theorem all_eq_of_perm (p : α → Bool) {l₁ l₂ : List α} (h : l₁.Perm l₂) :
    l₁.all p = l₂.all p := by
  induction h with
  | nil => rfl
  | cons a _ ih => simp [List.all_cons, ih]
  | swap a b l => simp [List.all_cons, Bool.and_left_comm]
  | trans _ _ ih1 ih2 => exact ih1.trans ih2

/-! ### The `".json"` pattern has no self-overlap: first-occurrence removal
after appending the extension recovers a clean base name. -/

theorem replaceFirstChars_cons (pat repl : List Char) (c : Char) (cs : List Char) :
    replaceFirstChars pat repl (c :: cs)
      = if pat.isPrefixOf (c :: cs) then repl ++ (c :: cs).drop pat.length
        else c :: replaceFirstChars pat repl cs := rfl

/-- `".json"` cannot straddle the boundary of `l ++ ".json"`: an occurrence
at the very front of the appended text is inside `l` or at the boundary of
an empty `l` (no proper nonempty prefix of `".json"` is also a suffix). -/
theorem jsonPat_no_straddle (l : List Char)
    (h : jsonPatChars.isPrefixOf (l ++ jsonPatChars) = true) :
    l = [] ∨ jsonPatChars.isPrefixOf l = true := by
  rcases l with _ | ⟨a, _ | ⟨b, _ | ⟨c, _ | ⟨d, _ | ⟨e, rest⟩⟩⟩⟩⟩
  · exact Or.inl rfl
  · exfalso
    rw [show jsonPatChars.isPrefixOf ([a] ++ jsonPatChars)
        = (('.' == a) && List.isPrefixOf ['j', 's', 'o', 'n'] jsonPatChars) from rfl,
      show List.isPrefixOf ['j', 's', 'o', 'n'] jsonPatChars = false from rfl,
      Bool.and_false] at h
    exact Bool.noConfusion h
  · exfalso
    rw [show jsonPatChars.isPrefixOf ([a, b] ++ jsonPatChars)
        = (('.' == a) && (('j' == b)
            && List.isPrefixOf ['s', 'o', 'n'] jsonPatChars)) from rfl,
      show List.isPrefixOf ['s', 'o', 'n'] jsonPatChars = false from rfl,
      Bool.and_false, Bool.and_false] at h
    exact Bool.noConfusion h
  · exfalso
    rw [show jsonPatChars.isPrefixOf ([a, b, c] ++ jsonPatChars)
        = (('.' == a) && (('j' == b) && (('s' == c)
            && List.isPrefixOf ['o', 'n'] jsonPatChars))) from rfl,
      show List.isPrefixOf ['o', 'n'] jsonPatChars = false from rfl,
      Bool.and_false, Bool.and_false, Bool.and_false] at h
    exact Bool.noConfusion h
  · exfalso
    rw [show jsonPatChars.isPrefixOf ([a, b, c, d] ++ jsonPatChars)
        = (('.' == a) && (('j' == b) && (('s' == c) && (('o' == d)
            && List.isPrefixOf ['n'] jsonPatChars)))) from rfl,
      show List.isPrefixOf ['n'] jsonPatChars = false from rfl,
      Bool.and_false, Bool.and_false, Bool.and_false, Bool.and_false] at h
    exact Bool.noConfusion h
  · refine Or.inr ?_
    rw [show jsonPatChars.isPrefixOf ((a :: b :: c :: d :: e :: rest) ++ jsonPatChars)
        = (('.' == a) && (('j' == b) && (('s' == c) && (('o' == d) && (('n' == e)
            && List.isPrefixOf ([] : List Char) (rest ++ jsonPatChars)))))) from rfl,
      List.isPrefixOf_nil_left] at h
    rw [show jsonPatChars.isPrefixOf (a :: b :: c :: d :: e :: rest)
        = (('.' == a) && (('j' == b) && (('s' == c) && (('o' == d) && (('n' == e)
            && List.isPrefixOf ([] : List Char) rest))))) from rfl,
      List.isPrefixOf_nil_left]
    exact h

/-- Removing the first `".json"` occurrence from `base ++ ".json"` yields
`base` whenever `base` itself contains no `".json"`. -/
theorem replaceFirst_append_pat (l : List Char)
    (h : hasSubstrChars jsonPatChars l = false) :
    replaceFirstChars jsonPatChars [] (l ++ jsonPatChars) = l := by
  induction l with
  | nil => rfl
  | cons c cs ih =>
    have hsplit := h
    rw [show hasSubstrChars jsonPatChars (c :: cs)
        = (jsonPatChars.isPrefixOf (c :: cs) || hasSubstrChars jsonPatChars cs)
        from rfl] at hsplit
    have h1 : jsonPatChars.isPrefixOf (c :: cs) = false :=
      (Bool.or_eq_false_iff.mp hsplit).1
    have h2 : hasSubstrChars jsonPatChars cs = false :=
      (Bool.or_eq_false_iff.mp hsplit).2
    have h3 : jsonPatChars.isPrefixOf (c :: (cs ++ jsonPatChars)) = false := by
      cases hp : jsonPatChars.isPrefixOf (c :: (cs ++ jsonPatChars)) with
      | false => rfl
      | true =>
        have hp2 : jsonPatChars.isPrefixOf ((c :: cs) ++ jsonPatChars) = true := by
          rw [List.cons_append]
          exact hp
        rcases jsonPat_no_straddle (c :: cs) hp2 with hnil | hpre
        · exact absurd hnil (List.cons_ne_nil c cs)
        · rw [hpre] at h1
          exact Bool.noConfusion h1
    show replaceFirstChars jsonPatChars [] (c :: (cs ++ jsonPatChars)) = c :: cs
    rw [replaceFirstChars_cons]
    simp only [h3, Bool.false_eq_true, if_false]
    rw [ih h2]

/-- String-level corollary: for a base name free of `".json"`, the id
computed from the listed file name is the base name itself. -/
theorem idOfFileName_clean_base (base : String)
    (h : hasSubstr base ".json" = false) :
    idOfFileName (base ++ ".json") = base := by
  have h' : hasSubstrChars jsonPatChars base.data = false := h
  show String.mk (replaceFirstChars jsonPatChars [] (base.data ++ jsonPatChars)) = base
  rw [replaceFirst_append_pat base.data h']

/-! ### Unfolding and characterizing `getDocs` -/

theorem getDocs_query (fs : FileSystem) (q : Query) :
    getDocs fs (.query q)
      = if q.filters.isEmpty then getDocsFromCollection fs q.collection
        else (getDocsFromCollection fs q.collection).filter (docMatches q.filters) :=
  rfl

theorem getDocs_coll (fs : FileSystem) (c : CollectionReference) :
    getDocs fs (.coll c) = getDocsFromCollection fs c :=
  rfl

/-- For a nonempty clause list, the `getDocs` predicate is exactly the
conjunction of the individual clause predicates. -/
theorem docMatches_eq_forall (filters : List WhereClause) (snap : DocumentSnapshot)
    (hne : filters ≠ []) :
    docMatches filters snap = true ↔ ∀ cl ∈ filters, matchesClause snap cl = true := by
  obtain ⟨cl0, hcl0⟩ : ∃ cl, cl ∈ filters := by
    rcases filters with _ | ⟨cl, cls⟩
    · exact absurd rfl hne
    · exact ⟨cl, List.mem_cons_self cl cls⟩
  rcases hd : snap.data with _ | d
  · simp only [docMatches, matchesClause, hd]
    constructor
    · intro hh
      exact Bool.noConfusion hh
    · intro hh
      exact absurd (hh cl0 hcl0) (by simp)
  · simp only [docMatches, matchesClause, hd]
    by_cases ht : d.truthy = true
    · simp [ht, List.all_eq_true]
    · have ht' : d.truthy = false := by
        cases hv : d.truthy
        · rfl
        · exact absurd hv ht
      simp only [ht', Bool.false_and]
      constructor
      · intro hh
        exact Bool.noConfusion hh
      · intro hh
        exact absurd (hh cl0 hcl0) (by simp)

/-! ### Settling the claims -/

/-- C1: for every JSON-serializable data payload and every document
reference, `setDoc(ref, data)` immediately followed by `getDoc(ref)` (no
interleaving operations) yields a snapshot for which `exists()` is true and
`data()` deep-equals the written payload. -/
theorem setDoc_then_getDoc (fs : FileSystem) (docRef : DocumentReference)
    (payload : Json) (ts : String) :
    (getDoc (setDoc fs docRef payload ts) docRef).existsb = true
      ∧ (getDoc (setDoc fs docRef payload ts) docRef).data = some payload := by
  have hread : (setDoc fs docRef payload ts).read docRef.path
      = .ok (.valid (recordJson payload docRef.id ts)) := by
    simp [setDoc]
  constructor
  · simp [getDoc, hread, DocumentSnapshot.existsb, DocumentSnapshot.parsedRecord,
      recordJson, Json.truthy]
  · simp [getDoc, hread, DocumentSnapshot.data, DocumentSnapshot.parsedRecord,
      recordJson, Json.getField, List.lookup]

/-- C5: `getDoc` is total (no exception propagates: its very type returns a
snapshot for every read outcome) and whenever the read does not succeed —
the file is missing or any other failure occurs — the snapshot has absent
content: `exists()` is false, `data()` and `metadata()` are `undefined`. -/
theorem getDoc_absent (fs : FileSystem) (docRef : DocumentReference)
    (h : ∀ c, fs.read docRef.path ≠ ReadResult.ok c) :
    (getDoc fs docRef).existsb = false
      ∧ (getDoc fs docRef).data = none
      ∧ (getDoc fs docRef).metadata = none := by
  rcases hr : fs.read docRef.path with c | _ | _
  · exact absurd hr (h c)
  all_goals
    simp [getDoc, hr, DocumentSnapshot.existsb, DocumentSnapshot.data,
      DocumentSnapshot.metadata, DocumentSnapshot.parsedRecord]

theorem getDoc_absent_witness :
    (∀ c, absentFs.read (doc exampleCollection "missing").path ≠ ReadResult.ok c)
      ∧ ((getDoc absentFs (doc exampleCollection "missing")).existsb = false
        ∧ (getDoc absentFs (doc exampleCollection "missing")).data = none
        ∧ (getDoc absentFs (doc exampleCollection "missing")).metadata = none) :=
  ⟨fun _ h => ReadResult.noConfusion h,
    getDoc_absent absentFs (doc exampleCollection "missing")
      (fun _ h => ReadResult.noConfusion h)⟩

/-- C6: a `setDoc` call stamps `createdAt` and `updatedAt` with the same
freshly computed timestamp; after two `setDoc` calls on the same reference
(at distinct instants, which is what "freshly computed" provides) the
record read back holds only the second payload and its `createdAt` differs
from the one the first write produced. -/
theorem setDoc_overwrites_createdAt (fs : FileSystem) (docRef : DocumentReference)
    (d1 d2 : Json) (ts1 ts2 : String) (hts : ts1 ≠ ts2) :
    (getDoc (setDoc fs docRef d1 ts1) docRef).metadata
        = some (Json.obj [("createdAt", .str ts1), ("updatedAt", .str ts1)])
      ∧ (getDoc (setDoc (setDoc fs docRef d1 ts1) docRef d2 ts2) docRef).data = some d2
      ∧ metaCreatedAt (getDoc (setDoc (setDoc fs docRef d1 ts1) docRef d2 ts2) docRef)
          = some (.str ts2)
      ∧ metaCreatedAt (getDoc (setDoc (setDoc fs docRef d1 ts1) docRef d2 ts2) docRef)
          ≠ metaCreatedAt (getDoc (setDoc fs docRef d1 ts1) docRef) := by
  have hread1 : (setDoc fs docRef d1 ts1).read docRef.path
      = .ok (.valid (recordJson d1 docRef.id ts1)) := by
    simp [setDoc]
  have hread2 : (setDoc (setDoc fs docRef d1 ts1) docRef d2 ts2).read docRef.path
      = .ok (.valid (recordJson d2 docRef.id ts2)) := by
    simp [setDoc]
  have hm1 : (getDoc (setDoc fs docRef d1 ts1) docRef).metadata
      = some (Json.obj [("createdAt", .str ts1), ("updatedAt", .str ts1)]) := by
    simp [getDoc, hread1, DocumentSnapshot.metadata, DocumentSnapshot.parsedRecord,
      recordJson, Json.getField, List.lookup]
  have hm2 : metaCreatedAt (getDoc (setDoc (setDoc fs docRef d1 ts1) docRef d2 ts2) docRef)
      = some (.str ts2) := by
    simp [getDoc, hread2, metaCreatedAt, DocumentSnapshot.metadata,
      DocumentSnapshot.parsedRecord, recordJson, Json.getField, List.lookup]
  refine ⟨hm1, ?_, hm2, ?_⟩
  · simp [getDoc, hread2, DocumentSnapshot.data, DocumentSnapshot.parsedRecord,
      recordJson, Json.getField, List.lookup]
  · have hm1c : metaCreatedAt (getDoc (setDoc fs docRef d1 ts1) docRef)
        = some (.str ts1) := by
      simp [metaCreatedAt, hm1, Json.getField, List.lookup]
    rw [hm2, hm1c]
    simp only [ne_eq, Option.some.injEq, Json.str.injEq]
    exact fun hh => hts hh.symm

theorem setDoc_overwrites_createdAt_witness :
    ("t1" : String) ≠ "t2"
      ∧ metaCreatedAt (getDoc (setDoc (setDoc absentFs (doc exampleCollection "d") (.num 1) "t1")
            (doc exampleCollection "d") (.num 2) "t2") (doc exampleCollection "d"))
          ≠ metaCreatedAt (getDoc (setDoc absentFs (doc exampleCollection "d") (.num 1) "t1")
            (doc exampleCollection "d")) :=
  ⟨by decide,
    (setDoc_overwrites_createdAt absentFs (doc exampleCollection "d")
      (.num 1) (.num 2) "t1" "t2" (by decide)).2.2.2⟩

/-- C7: `deleteDoc` on a nonexistent file resolves successfully after
logging a warning (delete is idempotent); any other unlink failure is
surfaced as an error whose message names the document id and the
underlying cause. -/
theorem deleteDoc_idempotent (docRef : DocumentReference) (msg : String) :
    (deleteDoc docRef .enoent).1 = .ok ()
      ∧ (deleteDoc docRef .enoent).2
        = ["Document " ++ docRef.id ++ " does not exist, nothing to delete."]
      ∧ (deleteDoc docRef (.err msg)).1
        = .error ("Failed to delete document " ++ docRef.id ++ ": " ++ msg) :=
  ⟨rfl, rfl, rfl⟩

/-- C2 counterexample: the file content `5` is valid JSON and truthy, so
`exists()` returns true although nothing resembling a structurally valid
record (an object with `data`, `id`, `meta` fields) was parsed — and
`data()`/`metadata()` are nevertheless absent. -/
theorem exists_true_without_record :
    badSnapshot.existsb = true
      ∧ badSnapshot.data = none
      ∧ badSnapshot.metadata = none :=
  ⟨rfl, rfl, rfl⟩

/-- C2 (amended): `exists()` returns true iff raw content was present and
parsed to a *truthy* JSON value — the record structure is not validated —
and whenever the parsed value does carry `data` and `meta` fields (as every
record written by `setDoc` does), `exists()` is true and `data()` and
`metadata()` return those fields, non-absent.  Accessors are pure functions
of the (memoized) parse, so this holds for every subsequent call. -/
theorem exists_iff_truthy_parse (s : DocumentSnapshot) :
    (s.existsb = true ↔ ∃ j, s.raw = some (FileContent.valid j) ∧ j.truthy = true)
      ∧ (∀ j d m, s.raw = some (FileContent.valid j) →
          j.getField "data" = some d → j.getField "meta" = some m →
          s.existsb = true ∧ s.data = some d ∧ s.metadata = some m) := by
  constructor
  · rcases hr : s.raw with _ | c
    · simp [DocumentSnapshot.existsb, DocumentSnapshot.parsedRecord, hr]
    · rcases c with j | _
      · simp [DocumentSnapshot.existsb, DocumentSnapshot.parsedRecord, hr]
      · simp [DocumentSnapshot.existsb, DocumentSnapshot.parsedRecord, hr]
  · intro j d m hr hd hm
    have hobj : j.truthy = true := by
      rcases j with _ | b | n | t | es | fields
      all_goals first
        | rfl
        | (exfalso; simp [Json.getField] at hd)
    refine ⟨?_, ?_, ?_⟩
    · simp [DocumentSnapshot.existsb, DocumentSnapshot.parsedRecord, hr, hobj]
    · simp [DocumentSnapshot.data, DocumentSnapshot.parsedRecord, hr, hd]
    · simp [DocumentSnapshot.metadata, DocumentSnapshot.parsedRecord, hr, hm]

theorem getDocsFromCollection_eq (fs : FileSystem) (collection : CollectionReference)
    (files : List DirEnt) (hl : fs.listDir (docsDirPath collection) = some files) :
    getDocsFromCollection fs collection
      = (docEntries files).map (readDocTask fs collection) := by
  unfold getDocsFromCollection
  rw [hl]

/-- C8: clauses are applied as a conjunction — a document is returned iff
it satisfies every clause (under the guard that absent or falsy data never
matches) — and for every permutation of the clause list both the set and
the order of the returned documents are identical. -/
theorem getDocs_conjunction_perm_invariant (fs : FileSystem) (q q' : Query)
    (hcoll : q'.collection = q.collection) (hperm : q.filters.Perm q'.filters) :
    getDocs fs (.query q) = getDocs fs (.query q')
      ∧ ∀ snap, snap ∈ getDocs fs (.query q)
          ↔ (snap ∈ getDocsFromCollection fs q.collection
              ∧ ∀ cl ∈ q.filters, matchesClause snap cl = true) := by
  have heq : getDocs fs (.query q) = getDocs fs (.query q') := by
    rw [getDocs_query, getDocs_query, hcoll]
    by_cases hnil : q.filters = []
    · have hnil' : q'.filters = [] := by
        have hp := hperm
        rw [hnil] at hp
        exact (hp.symm).eq_nil
      rw [hnil, hnil']
    · have hnil' : q'.filters ≠ [] := by
        intro hh
        rw [hh] at hperm
        exact hnil hperm.eq_nil
      rw [if_neg (by simpa [List.isEmpty_iff] using hnil),
        if_neg (by simpa [List.isEmpty_iff] using hnil')]
      apply List.filter_congr
      intro snap _
      rcases hd : snap.data with _ | d
      · simp [docMatches, hd]
      · simp only [docMatches, hd]
        rw [all_eq_of_perm (evalClause d) hperm]
  refine ⟨heq, ?_⟩
  intro snap
  rw [getDocs_query]
  by_cases hnil : q.filters = []
  · rw [hnil]
    simp
  · rw [if_neg (by simpa [List.isEmpty_iff] using hnil), List.mem_filter]
    constructor
    · rintro ⟨hm, hp⟩
      exact ⟨hm, (docMatches_eq_forall _ _ hnil).mp hp⟩
    · rintro ⟨hm, hp⟩
      exact ⟨hm, (docMatches_eq_forall _ _ hnil).mpr hp⟩

theorem getDocs_conjunction_perm_invariant_witness :
    (queryBA.collection = queryAB.collection ∧ queryAB.filters.Perm queryBA.filters)
      ∧ getDocs absentFs (.query queryAB) = getDocs absentFs (.query queryBA) :=
  ⟨⟨rfl, List.Perm.swap clauseName clauseAge []⟩,
    (getDocs_conjunction_perm_invariant absentFs queryAB queryBA rfl
      (List.Perm.swap clauseName clauseAge [])).1⟩

/-- C9: a document whose file content fails to parse is included, with an
absent-data snapshot, in the unfiltered listing, but excluded by any query
carrying at least one clause (the predicate sees absent data and treats the
document as non-matching). -/
theorem unparsable_excluded_by_filters (fs : FileSystem) (q : Query)
    (snap : DocumentSnapshot) (hne : q.filters ≠ [])
    (hmem : snap ∈ getDocsFromCollection fs q.collection)
    (hraw : snap.raw = some FileContent.malformed) :
    snap ∈ getDocs fs (.coll q.collection) ∧ snap ∉ getDocs fs (.query q) := by
  have hdata : snap.data = none := by
    simp [DocumentSnapshot.data, DocumentSnapshot.parsedRecord, hraw]
  refine ⟨by rw [getDocs_coll]; exact hmem, ?_⟩
  rw [getDocs_query, if_neg (by simpa [List.isEmpty_iff] using hne)]
  intro hmem'
  have hp := (List.mem_filter.mp hmem').2
  rw [show docMatches q.filters snap = false from by simp [docMatches, hdata]] at hp
  exact Bool.noConfusion hp

theorem unparsable_excluded_by_filters_witness :
    (filteredQuery.filters ≠ []
        ∧ badDocSnap ∈ getDocsFromCollection badFileFs filteredQuery.collection
        ∧ badDocSnap.raw = some FileContent.malformed)
      ∧ (badDocSnap ∈ getDocs badFileFs (.coll filteredQuery.collection)
        ∧ badDocSnap ∉ getDocs badFileFs (.query filteredQuery)) := by
  have hmem : badDocSnap ∈ getDocsFromCollection badFileFs filteredQuery.collection := by
    rw [show getDocsFromCollection badFileFs filteredQuery.collection = [badDocSnap]
      from rfl]
    exact List.mem_singleton.mpr rfl
  exact ⟨⟨List.cons_ne_nil clauseAge [], hmem, rfl⟩,
    unparsable_excluded_by_filters badFileFs filteredQuery badDocSnap
      (List.cons_ne_nil clauseAge []) hmem rfl⟩

/-- C3: `getDocs` lists the `documents` directory, keeps only regular
`.json` files, sorts by the numeric-aware comparator and truncates to
`maxDocs` (100): the result length is `min (retained count) 100`; entries
past the cap are never read — the result is unchanged, for *any* filter
list, under any change of the filesystem's reads outside the capped,
sorted, retained entries; and ids `"2"`, `"10"`, `"abc"` come back in
exactly this comparator order. -/
theorem getDocs_listing_cap_order (fs : FileSystem) (collection : CollectionReference)
    (files : List DirEnt) (hl : fs.listDir (docsDirPath collection) = some files) :
    ((getDocsFromCollection fs collection).length
        = min (files.filter keepEntry).length maxDocs)
      ∧ (∀ fs' : FileSystem, fs'.listDir (docsDirPath collection) = some files →
          (∀ e ∈ docEntries files,
            fs'.read (docPathOfEntry collection e) = fs.read (docPathOfEntry collection e)) →
          ∀ filters : List WhereClause,
            getDocs fs' (.query ⟨collection, filters⟩)
              = getDocs fs (.query ⟨collection, filters⟩))
      ∧ ((getDocsFromCollection orderFs exampleCollection).map (fun s => s.ref.id)
          = ["2", "10", "abc"]) := by
  refine ⟨?_, ?_, by rfl⟩
  · rw [getDocsFromCollection_eq fs collection files hl]
    simp only [List.length_map, docEntries, List.length_take, sortJs_length]
    exact Nat.min_comm _ _
  · intro fs' hl' hr filters
    have hdocs : getDocsFromCollection fs' collection
        = getDocsFromCollection fs collection := by
      rw [getDocsFromCollection_eq fs collection files hl,
        getDocsFromCollection_eq fs' collection files hl']
      exact List.map_congr_left (fun e he => by
        unfold readDocTask
        rw [hr e he])
    simp only [getDocs_query, hdocs]

set_option maxRecDepth 8000 in
theorem getDocs_listing_cap_order_witness :
    fs150.listDir (docsDirPath exampleCollection) = some files150
      ∧ (getDocsFromCollection fs150 exampleCollection).length = 100 := by
  refine ⟨by rfl, ?_⟩
  have h := (getDocs_listing_cap_order fs150 exampleCollection files150 (by rfl)).1
  rw [h]
  decide

/-- C10 counterexample: for the listed file `"a.json.json"` the base name
`"a.json"` does contain `".json"`, yet the computed id *equals* the base
name and the path read back is exactly the listed file — refuting the
claim's "otherwise the snapshot carries a different id and its content is
read from a path that does not correspond to the listed file". -/
theorem filename_id_cex :
    idOfFileName "a.json.json" = "a.json"
      ∧ hasSubstr "a.json" ".json" = true
      ∧ idOfFileName "a.json.json" ++ ".json" = "a.json.json" :=
  ⟨by decide, by decide, by decide⟩

/-- C10 (amended): every snapshot produced by the bulk listing carries the
id `file.name.replace('.json', '')` — the name with only its first
`".json"` occurrence removed — and is read from `<documents>/<id>.json`;
when the base name contains no `".json"` this id *is* the base name and the
path read is the listed file; when it does, id and path may differ from the
listed file (`"b.json5.json"` is read back as `"b5.json.json"`), though
they can also coincide (`"a.json.json"`). -/
theorem snapshot_id_from_filename :
    (∀ (fs : FileSystem) (collection : CollectionReference) (snap : DocumentSnapshot),
        snap ∈ getDocsFromCollection fs collection →
        ∃ files e, fs.listDir (docsDirPath collection) = some files
          ∧ e ∈ files ∧ keepEntry e = true
          ∧ snap.ref.id = idOfFileName e.name
          ∧ snap.ref.path = docsDirPath collection ++ "/" ++ idOfFileName e.name ++ ".json")
      ∧ (∀ base : String, hasSubstr base ".json" = false →
          idOfFileName (base ++ ".json") = base
            ∧ idOfFileName (base ++ ".json") ++ ".json" = base ++ ".json")
      ∧ (idOfFileName "b.json5.json" = "b5.json"
          ∧ idOfFileName "b.json5.json" ++ ".json" ≠ "b.json5.json") := by
  refine ⟨?_, ?_, by decide, by decide⟩
  · intro fs collection snap hmem
    rcases hld : fs.listDir (docsDirPath collection) with _ | files
    · have hnil : getDocsFromCollection fs collection = [] := by
        unfold getDocsFromCollection
        rw [hld]
      rw [hnil] at hmem
      exact absurd hmem (List.not_mem_nil snap)
    · rw [getDocsFromCollection_eq fs collection files hld] at hmem
      obtain ⟨e, he, hsnap⟩ := List.mem_map.mp hmem
      have he2 : e ∈ sortJs entryLe (files.filter keepEntry) :=
        List.mem_of_mem_take he
      have he3 : e ∈ files.filter keepEntry := ((sortJs_perm entryLe _).mem_iff).mp he2
      have he4 := List.mem_filter.mp he3
      refine ⟨files, e, rfl, he4.1, he4.2, ?_, ?_⟩
      · rw [← hsnap]
        unfold readDocTask
        rcases fs.read (docPathOfEntry collection e) with _ | _ | _ <;> rfl
      · rw [← hsnap]
        unfold readDocTask
        rcases fs.read (docPathOfEntry collection e) with _ | _ | _ <;> rfl
  · intro base hb
    have h1 := idOfFileName_clean_base base hb
    exact ⟨h1, by rw [h1]⟩

theorem snapshot_id_from_filename_witness :
    hasSubstr "doc1" ".json" = false
      ∧ (idOfFileName ("doc1" ++ ".json") = "doc1"
        ∧ idOfFileName ("doc1" ++ ".json") ++ ".json" = "doc1" ++ ".json") :=
  ⟨by decide, snapshot_id_from_filename.2.1 "doc1" (by decide)⟩

/-- C4: under every schedule that lets `Promise.all` resolve — i.e. for
*any* completion order of the in-flight reads — the pool with a positive
width executes each task exactly once and stores each result at the task's
original index, so the output equals the sequential `tasks.map`; in
particular the bulk read of a collection delivers the snapshots in the
original sorted order, which is exactly `getDocsFromCollection`. -/
theorem runner_preserves_order :
    (∀ (α : Type) (tasks : List α) (limit : Nat) (sched : List Nat),
        0 < limit → allDone (runPool tasks limit sched) = true →
        (runPool tasks limit sched).results = tasks.map some
          ∧ ∀ i, i < tasks.length → (runPool tasks limit sched).log.count i = 1)
      ∧ (∀ (fs : FileSystem) (collection : CollectionReference) (files : List DirEnt)
          (sched : List Nat), fs.listDir (docsDirPath collection) = some files →
          allDone (runPool ((docEntries files).map (readDocTask fs collection))
              concurrency sched) = true →
          (runPool ((docEntries files).map (readDocTask fs collection))
              concurrency sched).results
            = (getDocsFromCollection fs collection).map some) := by
  constructor
  · exact fun α tasks limit sched hlim hdone => runPool_complete tasks limit sched hlim hdone
  · intro fs collection files sched hl hdone
    rw [(runPool_complete _ concurrency sched (by decide) hdone).1,
      getDocsFromCollection_eq fs collection files hl]

set_option maxRecDepth 40000 in
theorem runner_preserves_order_witness :
    ((0 : Nat) < 10 ∧ allDone (runPool (List.range 37) 10 sched37) = true)
      ∧ (runPool (List.range 37) 10 sched37).results = (List.range 37).map some :=
  ⟨⟨by decide, by decide⟩,
    (runner_preserves_order.1 Nat (List.range 37) 10 sched37 (by decide) (by decide)).1⟩

theorem exists_iff_truthy_parse_witness :
    (recordSnapshot.raw = some (FileContent.valid (recordJson (.num 7) "ok" "t0"))
        ∧ (recordJson (.num 7) "ok" "t0").getField "data" = some (.num 7)
        ∧ (recordJson (.num 7) "ok" "t0").getField "meta"
            = some (.obj [("createdAt", .str "t0"), ("updatedAt", .str "t0")]))
      ∧ (recordSnapshot.existsb = true
        ∧ recordSnapshot.data = some (.num 7)
        ∧ recordSnapshot.metadata
            = some (.obj [("createdAt", .str "t0"), ("updatedAt", .str "t0")])) :=
  ⟨⟨rfl, rfl, rfl⟩,
    (exists_iff_truthy_parse recordSnapshot).2 (recordJson (.num 7) "ok" "t0")
      (.num 7) (.obj [("createdAt", .str "t0"), ("updatedAt", .str "t0")])
      rfl rfl rfl⟩

end DummyDb
